import Mathlib

/-!
Verification of `import_checker/import_checker.py` (the `PyFile` static
dependency analyzer) against its natural-language specification.

The embedding below translates the Python source into Lean:

* A parsed Python file is modelled as the sequence of `ast.Import` /
  `ast.ImportFrom` nodes that `ast.walk` yields for it, in walk order.
  CPython's `ast` represents `from M import *` as an `ImportFrom` node whose
  `names` list contains the single alias `*`, and `from . import x` as an
  `ImportFrom` node with `module = None` and `level = 1`; the model keeps
  both representations.
* Python `set`s that the code only ever adds to are modelled as
  insertion-ordered duplicate-free lists (`setAdd`); Python `dict`s as
  association lists with dict update semantics (`dictInsert`).
* The filesystem is a value `FS`: an association list from paths (component
  lists) to parse results (`none` models a file that raises `SyntaxError`),
  plus a list of directory paths.  `Path.exists()` is true for files and
  directories, `Path.is_dir()` for directories only.
* `sys.stdlib_module_names` is a parameter `reg : List String` (a fixed
  registry of built-in module names).
* Exceptions are modelled with `Except PyErr`.  CPython's `sorted` raises
  `TypeError` as soon as it compares `None` with a string (or with another
  `None`); any comparison sort of a list with `≥ 2` elements compares every
  element at least once, so sorting a dependency set that contains `None`
  together with anything else fails (`pySorted`).
* Recursion in `PyFile.__post_init__` is driven by a fuel argument that is
  kept equal to `depth_limit - depth`; the recursion guard in the source is
  `depth == depth_limit`, which the model tests literally, so the fuel
  fallback branch is unreachable for runs started at depth 0.
-/

/-- One `ast.alias` node: an imported name with an optional `as` alias.
The analyzer never reads `asname`. -/
structure PyAlias where
  name : String
  asname : Option String
deriving DecidableEq, Repr

/-- One import statement as produced by CPython's parser: `ast.Import`
carries a list of aliases; `ast.ImportFrom` carries an optional source
module (`none` for `from . import x`), a list of aliases, and a relative
level (unused by the analyzer). -/
inductive Stmt where
  | imp (names : List PyAlias)
  | impFrom (module : Option String) (names : List PyAlias) (level : Nat)
deriving DecidableEq, Repr

/-- Python exceptions the analyzer can raise. -/
inductive PyErr where
  | fileNotFound
  | isADirectory
  | parseError
  | typeError
  | attributeError
deriving DecidableEq, Repr

/-- The filesystem visible to the analyzer.  `files` maps a path (list of
components) to its parse result: `some stmts` for a file that parses to the
given import statements, `none` for a file whose text is not valid Python.
`dirs` lists paths that are directories. -/
structure FS where
  files : List (List String × Option (List Stmt))
  dirs : List (List String)

def FS.lookupFile (fs : FS) (p : List String) : Option (Option (List Stmt)) :=
  fs.files.lookup p

/-- Model of `Path.exists()`: true for both files and directories. -/
def FS.pathExists (fs : FS) (p : List String) : Bool :=
  fs.files.any (fun e => e.1 == p) || fs.dirs.contains p

/-- Model of `Path.is_dir()`. -/
def FS.isDir (fs : FS) (p : List String) : Bool :=
  fs.dirs.contains p

/-- Python `set.add` on an insertion-ordered duplicate-free list. -/
def setAdd {α : Type} [BEq α] (l : List α) (x : α) : List α :=
  if l.contains x then l else l ++ [x]

/-- Python `dict` assignment `d[k] = v`: an existing key keeps its
position and gets the new value, a new key is appended. -/
def dictInsert {β : Type} (k : String) (v : β) : List (String × β) → List (String × β)
  | [] => [(k, v)]
  | (k2, v2) :: rest => if k == k2 then (k, v) :: rest else (k2, v2) :: dictInsert k v rest

/-- Model of `name in sys.stdlib_module_names` for a value that is either a string
or Python `None` (`None in <tuple of str>` is `False`). -/
def inRegistry (reg : List String) : Option String → Bool
  | some s => reg.contains s
  | none => false

/-- Python `str(x)` for a value that is a string or `None`, as used by the
f-string in `process_importfrom`. -/
def pyStr : Option String → String
  | some s => s
  | none => "None"

/-- Model of `PyFile._add_library_dependency` (lines 129-158): add the candidate to
the `library_dependencies` set, unless stdlib modules are excluded and the
candidate is in the registry. -/
def addLibraryDependency (reg : List String) (includeStdlib : Bool)
    (libs : List (Option String)) (name : Option String) : List (Option String) :=
  if includeStdlib then setAdd libs name
  else if inRegistry reg name then libs
  else setAdd libs name

/-- The analyzer's classification state: the `library_dependencies` set and
the `specific_submodules_imported` set, both as insertion-ordered lists. -/
abbrev ClassState := List (Option String) × List String

/-- Model of `PyFile.process_import` (lines 235-237). -/
def processImport (reg : List String) (includeStdlib : Bool)
    (st : ClassState) (names : List PyAlias) : ClassState :=
  (names.foldl (fun libs a => addLibraryDependency reg includeStdlib libs (some a.name)) st.1,
   st.2)

/-- Model of `PyFile.process_importfrom` (lines 239-248): one loop adds the source
module to `library_dependencies` once per imported name, a second loop adds
the f-string of module, a dot and the imported name to
`specific_submodules_imported`. -/
def processImportFrom (reg : List String) (includeStdlib : Bool)
    (st : ClassState) (module : Option String) (names : List PyAlias) : ClassState :=
  (names.foldl (fun libs _ => addLibraryDependency reg includeStdlib libs module) st.1,
   names.foldl (fun sp a => setAdd sp (pyStr module ++ "." ++ a.name)) st.2)

/-- One iteration of the `ast.walk` loop in `resolve_dependencies`
(lines 169-177): an `ast.ImportFrom` first gets its module added once per
name (lines 174-175) and is then handed to `process_importfrom`. -/
def classifyStmt (reg : List String) (includeStdlib : Bool)
    (st : ClassState) : Stmt → ClassState
  | .imp names => processImport reg includeStdlib st names
  | .impFrom m names _ =>
    let libs0 := names.foldl (fun libs _ => addLibraryDependency reg includeStdlib libs m) st.1
    processImportFrom reg includeStdlib (libs0, st.2) m names

/-- Extraction plus classification for a whole file: fold the walk loop
over the file's import statements, starting from empty sets. -/
def classifyStmts (reg : List String) (includeStdlib : Bool)
    (stmts : List Stmt) : ClassState :=
  stmts.foldl (classifyStmt reg includeStdlib) ([], [])

/-- Split a character list at every occurrence of `c`
(the component structure that results from replacing every dot of a dotted
name with a path separator). -/
def splitOnChar (c : Char) : List Char → List (List Char)
  | [] => [[]]
  | x :: xs =>
    if x == c then [] :: splitOnChar c xs
    else
      match splitOnChar c xs with
      | [] => [[x]]
      | y :: ys => (x :: y) :: ys

/-- Model of the path built at source lines 209-210 and 226: the dotted
name with dots replaced by path separators and a py suffix appended, as a
component list: the name split at dots, the last component extended. -/
def dottedPath (m : String) : List String :=
  let parts := (splitOnChar '.' m.data).map (fun cs => String.mk cs)
  parts.dropLast ++ [parts.getLastD "" ++ ".py"]

/-- Model of `self.path.parent` (pathlib drops the last component; the parent of a
bare filename contributes no components). -/
def parentDir (p : List String) : List String :=
  p.dropLast

/-- Model of `str(path)` for the relative paths the analyzer builds. -/
def pathStr : List String → String
  | [] => ""
  | [x] => x
  | x :: xs => x ++ "/" ++ pathStr xs

/-- The per-candidate decision of the `library_dependencies` loop in
`resolve_recursive_dependencies` (lines 193-220): skip registry names;
otherwise probe the sibling file named by the module plus a py suffix in
the directory of the current file, then the dotted path from the working
directory (`dottedPath`); recurse into neither if both are absent.  For
the `None` candidate (see `from . import x`), the f-string renders the
sibling filename as `None.py`, and if that sibling is absent the call
`None.replace` raises `AttributeError`. -/
def libTarget (fs : FS) (selfPath : List String) (reg : List String) :
    Option String → Except PyErr (Option (List String))
  | some m =>
    if reg.contains m then .ok none
    else
      let sib := parentDir selfPath ++ [m ++ ".py"]
      if fs.pathExists sib then .ok (some sib)
      else if fs.pathExists (dottedPath m) then .ok (some (dottedPath m))
      else .ok none
  | none =>
    let sib := parentDir selfPath ++ ["None.py"]
    if fs.pathExists sib then .ok (some sib)
    else .error .attributeError

/-- The per-candidate decision of the `specific_submodules_imported` loop
(lines 222-233): skip registry names; otherwise recurse into the dotted
path from the working directory (`dottedPath`) exactly when it exists and
is not a directory. -/
def subTarget (fs : FS) (reg : List String) (s : String) : Option (List String) :=
  if reg.contains s then none
  else if fs.pathExists (dottedPath s) && !fs.isDir (dottedPath s) then some (dottedPath s)
  else none

/-- One analyzed `PyFile` object after `__post_init__` finished: the
dataclass fields that matter for the spec, with `imported_files` as the
dict of child units keyed by `str(resolved path)`. -/
inductive PyFile where
  | mk : (path : List String) → (depth : Nat) → (depthLimit : Nat) →
      (includeStdlib : Bool) → (libraryDependencies : List (Option String)) →
      (specificSubmodulesImported : List String) →
      (importedFiles : List (String × PyFile)) → PyFile

def PyFile.path : PyFile → List String
  | .mk p _ _ _ _ _ _ => p

def PyFile.depth : PyFile → Nat
  | .mk _ d _ _ _ _ _ => d

def PyFile.depthLimit : PyFile → Nat
  | .mk _ _ dl _ _ _ _ => dl

def PyFile.includeStdlib : PyFile → Bool
  | .mk _ _ _ i _ _ _ => i

def PyFile.libraryDependencies : PyFile → List (Option String)
  | .mk _ _ _ _ l _ _ => l

def PyFile.specificSubmodulesImported : PyFile → List String
  | .mk _ _ _ _ _ s _ => s

def PyFile.importedFiles : PyFile → List (String × PyFile)
  | .mk _ _ _ _ _ _ c => c

/-- The `library_dependencies` loop of `resolve_recursive_dependencies`
(lines 193-220), with the recursive `PyFile` construction abstracted as
`recur`.  Errors from a child's construction propagate (the source's
`except` clause re-raises). -/
def resolveLibList (recur : List String → Except PyErr PyFile)
    (fs : FS) (reg : List String) (selfPath : List String) :
    List (Option String) → List (String × PyFile) → Except PyErr (List (String × PyFile))
  | [], acc => .ok acc
  | m :: ms, acc =>
    match libTarget fs selfPath reg m with
    | .error e => .error e
    | .ok none => resolveLibList recur fs reg selfPath ms acc
    | .ok (some t) =>
      match recur t with
      | .error e => .error e
      | .ok child => resolveLibList recur fs reg selfPath ms (dictInsert (pathStr t) child acc)

/-- The `specific_submodules_imported` loop of
`resolve_recursive_dependencies` (lines 222-233). -/
def resolveSubList (recur : List String → Except PyErr PyFile)
    (fs : FS) (reg : List String) :
    List String → List (String × PyFile) → Except PyErr (List (String × PyFile))
  | [], acc => .ok acc
  | s :: ss, acc =>
    match subTarget fs reg s with
    | none => resolveSubList recur fs reg ss acc
    | some t =>
      match recur t with
      | .error e => .error e
      | .ok child => resolveSubList recur fs reg ss (dictInsert (pathStr t) child acc)

/-- Model of `PyFile.__post_init__` / `resolve_dependencies` (lines 125-233): open
and parse the file, classify every import statement, and, unless
`depth == depth_limit`, resolve recursive dependencies.  `fuel` is kept
equal to `depth_limit - depth` by every caller, so the `0` fallback
(returning a leaf) is unreachable while `depth < depth_limit`. -/
def analyzeF (fs : FS) (reg : List String) (includeStdlib : Bool) (limit : Nat) :
    Nat → List String → Nat → Except PyErr PyFile
  | fuel, path, depth =>
    if fs.isDir path then .error .isADirectory
    else
      match fs.lookupFile path with
      | none => .error .fileNotFound
      | some none => .error .parseError
      | some (some stmts) =>
        if depth == limit then
          .ok (.mk path depth limit includeStdlib
            (classifyStmts reg includeStdlib stmts).1 (classifyStmts reg includeStdlib stmts).2 [])
        else
          match fuel with
          | 0 =>
            .ok (.mk path depth limit includeStdlib
              (classifyStmts reg includeStdlib stmts).1 (classifyStmts reg includeStdlib stmts).2 [])
          | fuel' + 1 =>
            match resolveLibList (fun t => analyzeF fs reg includeStdlib limit fuel' t (depth + 1))
                fs reg path (classifyStmts reg includeStdlib stmts).1 [] with
            | .error e => .error e
            | .ok acc1 =>
              match resolveSubList (fun t => analyzeF fs reg includeStdlib limit fuel' t (depth + 1))
                  fs reg (classifyStmts reg includeStdlib stmts).2 acc1 with
              | .error e => .error e
              | .ok acc2 =>
                .ok (.mk path depth limit includeStdlib
                  (classifyStmts reg includeStdlib stmts).1 (classifyStmts reg includeStdlib stmts).2 acc2)

/-- Construction of a caller-supplied root unit:
`PyFile(path, depth_limit=limit, include_stdlib_modules=flag)` with the
dataclass default `depth = 0`. -/
def analyzeRoot (fs : FS) (reg : List String) (includeStdlib : Bool)
    (limit : Nat) (path : List String) : Except PyErr PyFile :=
  analyzeF fs reg includeStdlib limit limit path 0

/-- Python `<` on strings: lexicographic comparison by code point. -/
def strLtAux : List Char → List Char → Bool
  | [], [] => false
  | [], _ :: _ => true
  | _ :: _, [] => false
  | a :: as, b :: bs =>
    if a.toNat < b.toNat then true
    else if b.toNat < a.toNat then false
    else strLtAux as bs

def strLt (a b : String) : Bool :=
  strLtAux a.data b.data

/-- Insert a string into a list sorted ascending by `strLt`. -/
def insSorted (x : String) : List String → List String
  | [] => [x]
  | y :: ys => if strLt y x then y :: insSorted x ys else x :: y :: ys

/-- Python `sorted` on a list of strings. -/
def strSort (l : List String) : List String :=
  l.foldr insSorted []

/-- Python `sorted` on a list that may contain `None` besides strings.
CPython raises `TypeError` on the first comparison that involves `None`;
a comparison sort of two or more elements compares every element at least
once, so any such list with at least two elements fails to sort. -/
def pySorted (l : List (Option String)) : Except PyErr (List (Option String)) :=
  if l.any (fun x => x.isNone) then
    if l.length ≤ 1 then .ok l else .error .typeError
  else .ok ((strSort (l.filterMap (fun x => x))).map some)

/-- One value of the output mapping: the two sorted arrays emitted for one
file (`None` in `library_dependencies` renders as JSON `null`, kept here as
`none`). -/
structure DepEntry where
  library_dependencies : List (Option String)
  specific_submodules_imported : List String
deriving DecidableEq, Repr

abbrev DepsMap := List (String × DepEntry)

mutual

/-- Model of `PyFile.get_dependencies` (lines 250-269): store this unit's sorted
dependency lists under `str(self.path)`, then recurse into
`imported_files` in dict order, threading the shared dict. -/
def PyFile.get_dependencies : PyFile → DepsMap → Except PyErr DepsMap
  | .mk path _ _ _ libs specs children, deps =>
    match pySorted libs with
    | .error e => .error e
    | .ok sortedLibs =>
      getDepsList children (dictInsert (pathStr path) ⟨sortedLibs, strSort specs⟩ deps)

def getDepsList : List (String × PyFile) → DepsMap → Except PyErr DepsMap
  | [], deps => .ok deps
  | (_, c) :: rest, deps =>
    match c.get_dependencies deps with
    | .error e => .error e
    | .ok deps2 => getDepsList rest deps2

end

/-- The loop body of `parse_imports` (lines 272-282): construct a root
`PyFile` for each starting path and collect its dependencies into the
shared dict; any exception aborts the whole run. -/
def parseImportsGo (fs : FS) (reg : List String) (limit : Nat) (includeStdlib : Bool) :
    List (List String) → DepsMap → Except PyErr DepsMap
  | [], deps => .ok deps
  | p :: ps, deps =>
    match analyzeRoot fs reg includeStdlib limit p with
    | .error e => .error e
    | .ok f =>
      match f.get_dependencies deps with
      | .error e => .error e
      | .ok deps2 => parseImportsGo fs reg limit includeStdlib ps deps2

/-- Model of `parse_imports`: the aggregated output document for the given roots
(the JSON printing glue is outside the model). -/
def parseImports (fs : FS) (reg : List String) (paths : List (List String))
    (limit : Nat) (includeStdlib : Bool) : Except PyErr DepsMap :=
  parseImportsGo fs reg limit includeStdlib paths []

mutual

/-- The structural invariant of §3: every child unit's `depth` is one more
than its parent's, and `depth_limit` / `include_stdlib_modules` are
inherited unchanged, recursively through the whole tree. -/
def unitInv : PyFile → Bool
  | .mk _ depth dl inc _ _ children => childListInv depth dl inc children

def childListInv : Nat → Nat → Bool → List (String × PyFile) → Bool
  | _, _, _, [] => true
  | d, dl, inc, (_, c) :: rest =>
    c.depth == d + 1 && c.depthLimit == dl && c.includeStdlib == inc &&
      unitInv c && childListInv d dl inc rest

end

/-- Strict lexicographic sortedness of an output string array. -/
def strictSorted (l : List String) : Prop :=
  List.Chain' (fun a b => strLt a b = true) l

/-- Strict sortedness for `library_dependencies` arrays, which can contain
`none`; `none` is never strictly below or above anything. -/
def optSltB : Option String → Option String → Bool
  | some x, some y => strLt x y
  | _, _ => false

def strictSortedOpt (l : List (Option String)) : Prop :=
  List.Chain' (fun a b => optSltB a b = true) l

/-- All entries of an aggregated dependency map have strictly sorted,
duplicate-free arrays. -/
def GoodDeps (deps : DepsMap) : Prop :=
  ∀ kc ∈ deps, strictSortedOpt kc.2.library_dependencies ∧
    strictSorted kc.2.specific_submodules_imported

/-- A unit whose `get_dependencies` preserves `GoodDeps`. -/
def GoodUnit (f : PyFile) : Prop :=
  ∀ deps out, GoodDeps deps → f.get_dependencies deps = .ok out → GoodDeps out

/-- A root file holding exactly `from M import *`. -/
def fsW : FS :=
  ⟨[(["w.py"], some [.impFrom (some "M") [⟨"*", none⟩] 0])], []⟩

/-- Scenario A: a root with `import alpha` and `import alpha.beta`;
`alpha.beta.py` exists on disk, `alpha.py` does not. -/
def fsA : FS :=
  ⟨[(["root.py"], some [.imp [⟨"alpha", none⟩], .imp [⟨"alpha.beta", none⟩]]),
    (["alpha.beta.py"], some [])], []⟩

/-- Scenario B: a root with `from pkg import (one as x, two)`. -/
def fsB : FS :=
  ⟨[(["root.py"], some [.impFrom (some "pkg") [⟨"one", some "x"⟩, ⟨"two", none⟩] 0])], []⟩

/-- Scenario C: two sibling files importing each other. -/
def fsC : FS :=
  ⟨[(["a.py"], some [.imp [⟨"b", none⟩]]),
    (["b.py"], some [.imp [⟨"a", none⟩]])], []⟩

/-- A well-formed root importing a sibling file that does not parse. -/
def fs9 : FS :=
  ⟨[(["good.py"], some [.imp [⟨"bad", none⟩]]), (["bad.py"], none)], []⟩

/-- A root holding `from . import x` followed by `import y`. -/
def fs10 : FS :=
  ⟨[(["f.py"], some [.impFrom none [⟨"x", none⟩] 1, .imp [⟨"y", none⟩]])], []⟩

/-- Fixture for exercising the library-name resolution policy: the current
file lives in `dir/`, a sibling `dir/sib.py` exists, and `mod.py` exists
relative to the working directory. -/
def fsR : FS :=
  ⟨[(["dir", "sib.py"], some []), (["mod.py"], some [])], []⟩

/-- Fixture for exercising submodule resolution: `p/q.py` is a file and
`d/e.py` is a directory. -/
def fsS : FS :=
  ⟨[(["p", "q.py"], some [])], [["d", "e.py"]]⟩

theorem charToNatInj (a b : Char) (h : a.toNat = b.toNat) : a = b := by
  cases a with
  | mk va ha =>
    cases b with
    | mk vb hb =>
      simp only [Char.toNat] at h
      congr 1
      exact UInt32.ext h

theorem strLtAux_irrefl (l : List Char) : strLtAux l l = false := by
  induction l with
  | nil => rfl
  | cons a as ih => simp [strLtAux, ih]

theorem strLtAux_asymm (l m : List Char) (h : strLtAux l m = true) : strLtAux m l = false := by
  induction l generalizing m with
  | nil =>
    cases m with
    | nil => simp [strLtAux] at h
    | cons b bs => simp [strLtAux]
  | cons a as ih =>
    cases m with
    | nil => simp [strLtAux] at h
    | cons b bs =>
      simp only [strLtAux] at h ⊢
      by_cases h1 : a.toNat < b.toNat
      · simp [h1, Nat.lt_asymm h1, Nat.ne_of_lt h1]
      · by_cases h2 : b.toNat < a.toNat
        · simp [h1, h2] at h
        · simp [h1, h2] at h ⊢
          exact ih _ h

theorem strLtAux_connex (l m : List Char) (h1 : strLtAux l m = false)
    (h2 : strLtAux m l = false) : l = m := by
  induction l generalizing m with
  | nil =>
    cases m with
    | nil => rfl
    | cons b bs => simp [strLtAux] at h1
  | cons a as ih =>
    cases m with
    | nil => simp [strLtAux] at h2
    | cons b bs =>
      simp only [strLtAux] at h1 h2
      by_cases hab : a.toNat < b.toNat
      · simp [hab] at h1
      · by_cases hba : b.toNat < a.toNat
        · simp [hba, hab] at h2
        · simp [hab, hba] at h1 h2
          have : a = b := charToNatInj a b (Nat.le_antisymm (Nat.le_of_not_lt hba) (Nat.le_of_not_lt hab))
          rw [this, ih bs h1 h2]

theorem strLt_asymm {a b : String} (h : strLt a b = true) : strLt b a = false :=
  strLtAux_asymm _ _ h

theorem strLt_connex {a b : String} (h1 : strLt a b = false) (h2 : strLt b a = false) : a = b :=
  String.ext (strLtAux_connex _ _ h1 h2)

theorem strLt_irrefl (a : String) : strLt a a = false :=
  strLtAux_irrefl _

theorem insSorted_perm (x : String) (l : List String) : List.Perm (insSorted x l) (x :: l) := by
  induction l with
  | nil => rfl
  | cons y ys ih =>
    simp only [insSorted]
    split
    · exact ((ih.cons y).trans (List.Perm.swap x y ys))
    · rfl

theorem strSort_perm (l : List String) : List.Perm (strSort l) l := by
  induction l with
  | nil => rfl
  | cons x xs ih =>
    simp only [strSort, List.foldr] at ih ⊢
    exact (insSorted_perm x _).trans (ih.cons x)

theorem insSorted_chain (x : String) (l : List String)
    (h : List.Chain' (fun a b => strLt b a = false) l) :
    List.Chain' (fun a b => strLt b a = false) (insSorted x l) := by
  induction l with
  | nil => simp [insSorted]
  | cons y ys ih =>
    simp only [insSorted]
    by_cases hyx : strLt y x
    · simp only [hyx, if_pos]
      have hch := ih h.tail
      rcases ys with _ | ⟨z, zs⟩
      · simp only [insSorted] at hch ⊢
        exact hch.cons (strLt_asymm hyx)
      · simp only [insSorted] at hch ⊢
        by_cases hzx : strLt z x
        · simp only [hzx, if_pos] at hch ⊢
          exact hch.cons (List.chain'_cons.mp h).1
        · simp only [hzx, if_neg, Bool.not_eq_true] at hch ⊢
          exact hch.cons (strLt_asymm hyx)
    · simp only [hyx, if_neg, Bool.not_eq_true]
      exact h.cons (Bool.not_eq_true _ ▸ hyx)

theorem strSort_chain (l : List String) :
    List.Chain' (fun a b => strLt b a = false) (strSort l) := by
  induction l with
  | nil => simp [strSort]
  | cons x xs ih => exact insSorted_chain x _ ih

theorem chain_le_lt (l : List String) (hnd : l.Nodup)
    (h : List.Chain' (fun a b => strLt b a = false) l) :
    List.Chain' (fun a b => strLt a b = true) l := by
  induction l with
  | nil => simp
  | cons x xs ih =>
    rcases xs with _ | ⟨y, ys⟩
    · simp
    · have hxy : x ≠ y := by
        intro he
        subst he
        simp at hnd
      refine List.chain'_cons.mpr ⟨?_, ih hnd.of_cons (List.chain'_cons.mp h).2⟩
      have hle := (List.chain'_cons.mp h).1
      cases hlt : strLt x y
      · exact absurd (strLt_connex hlt hle) hxy
      · rfl

theorem strSort_nodup (l : List String) (h : l.Nodup) : (strSort l).Nodup :=
  (strSort_perm l).nodup_iff.mpr h

theorem strSort_strict (l : List String) (h : l.Nodup) : strictSorted (strSort l) :=
  chain_le_lt _ (strSort_nodup l h) (strSort_chain l)

theorem pySorted_strict (l : List (Option String)) (hnd : l.Nodup) (out : List (Option String))
    (h : pySorted l = .ok out) : strictSortedOpt out := by
  unfold pySorted at h
  split at h
  · split at h
    · rcases l with _ | ⟨x, _ | ⟨y, ys⟩⟩
      · cases h
        simp [strictSortedOpt]
      · cases h
        simp [strictSortedOpt]
      · simp at *
    · cases h
  · cases h
    unfold strictSortedOpt
    rw [List.chain'_map]
    have hnd2 : (l.filterMap (fun x => x)).Nodup := by
      refine List.Nodup.filterMap ?_ hnd
      intro a a' b hb hb'
      simp only [Option.mem_def] at hb hb'
      rw [hb, hb']
    exact strSort_strict _ hnd2

theorem setAdd_nodup {α : Type} [BEq α] [LawfulBEq α] (l : List α) (x : α) (h : l.Nodup) :
    (setAdd l x).Nodup := by
  unfold setAdd
  split
  · exact h
  · next hc =>
    have hx : x ∉ l := by
      intro hmem
      exact hc (List.elem_eq_true_of_mem hmem)
    simp [List.nodup_append, h, hx]

theorem addLibraryDependency_nodup (reg : List String) (flag : Bool)
    (libs : List (Option String)) (name : Option String) (h : libs.Nodup) :
    (addLibraryDependency reg flag libs name).Nodup := by
  unfold addLibraryDependency
  split
  · exact setAdd_nodup _ _ h
  · split
    · exact h
    · exact setAdd_nodup _ _ h

theorem foldl_addDep_nodup (reg : List String) (flag : Bool) {β : Type}
    (f : β → Option String) (names : List β)
    (libs : List (Option String)) (h : libs.Nodup) :
    (names.foldl (fun l a => addLibraryDependency reg flag l (f a)) libs).Nodup := by
  induction names generalizing libs with
  | nil => exact h
  | cons a as ih => exact ih _ (addLibraryDependency_nodup reg flag libs (f a) h)

theorem foldl_setAdd_nodup {β : Type} (f : β → String) (names : List β)
    (sp : List String) (h : sp.Nodup) :
    (names.foldl (fun l a => setAdd l (f a)) sp).Nodup := by
  induction names generalizing sp with
  | nil => exact h
  | cons a as ih => exact ih _ (setAdd_nodup sp (f a) h)

theorem classifyStmt_nodup (reg : List String) (flag : Bool) (st : ClassState)
    (s : Stmt) (h1 : st.1.Nodup) (h2 : st.2.Nodup) :
    (classifyStmt reg flag st s).1.Nodup ∧ (classifyStmt reg flag st s).2.Nodup := by
  cases s with
  | imp names =>
    exact ⟨foldl_addDep_nodup reg flag _ names st.1 h1, h2⟩
  | impFrom m names lvl =>
    constructor
    · exact foldl_addDep_nodup reg flag _ names _ (foldl_addDep_nodup reg flag _ names st.1 h1)
    · exact foldl_setAdd_nodup _ names st.2 h2

theorem classifyStmts_nodup (reg : List String) (flag : Bool) (stmts : List Stmt) :
    (classifyStmts reg flag stmts).1.Nodup ∧ (classifyStmts reg flag stmts).2.Nodup := by
  unfold classifyStmts
  suffices h : ∀ (st : ClassState), st.1.Nodup → st.2.Nodup →
      (stmts.foldl (classifyStmt reg flag) st).1.Nodup ∧
      (stmts.foldl (classifyStmt reg flag) st).2.Nodup by
    exact h ([], []) List.nodup_nil List.nodup_nil
  induction stmts with
  | nil => exact fun st h1 h2 => ⟨h1, h2⟩
  | cons s ss ih =>
    intro st h1 h2
    have hs := classifyStmt_nodup reg flag st s h1 h2
    exact ih _ hs.1 hs.2

theorem dictInsert_mem {β : Type} (k : String) (v : β) (l : List (String × β)) :
    ∀ kc ∈ dictInsert k v l, kc = (k, v) ∨ kc ∈ l := by
  induction l with
  | nil => simp [dictInsert]
  | cons hd tl ih =>
    intro kc hkc
    simp only [dictInsert] at hkc
    split at hkc
    · rw [List.mem_cons] at hkc
      rcases hkc with h | h
      · exact Or.inl h
      · exact Or.inr (List.mem_cons_of_mem _ h)
    · rw [List.mem_cons] at hkc
      rcases hkc with h | h
      · exact Or.inr (h ▸ List.mem_cons_self _ _)
      · rcases ih kc h with h2 | h2
        · exact Or.inl h2
        · exact Or.inr (List.mem_cons_of_mem _ h2)


theorem analyzeF_ok_shape (fs : FS) (reg : List String) (flag : Bool) (limit : Nat)
    (fuel : Nat) (path : List String) (depth : Nat) (f : PyFile)
    (h : analyzeF fs reg flag limit fuel path depth = .ok f) :
    ∃ stmts children, fs.lookupFile path = some (some stmts) ∧
      f = .mk path depth limit flag (classifyStmts reg flag stmts).1
        (classifyStmts reg flag stmts).2 children ∧
      (children = [] ∨ ∃ fuel' acc1, fuel = fuel' + 1 ∧
        resolveLibList (fun t => analyzeF fs reg flag limit fuel' t (depth + 1))
          fs reg path (classifyStmts reg flag stmts).1 [] = .ok acc1 ∧
        resolveSubList (fun t => analyzeF fs reg flag limit fuel' t (depth + 1))
          fs reg (classifyStmts reg flag stmts).2 acc1 = .ok children) := by
  unfold analyzeF at h
  split at h
  · simp_all
  · split at h
    · simp_all
    · simp_all
    · next stmts heq =>
      split at h
      · cases h
        exact ⟨stmts, [], heq, rfl, Or.inl rfl⟩
      · split at h
        · cases h
          exact ⟨stmts, [], heq, rfl, Or.inl rfl⟩
        · next fuel' =>
          split at h
          · simp_all
          · next acc1 hlib =>
            split at h
            · simp_all
            · next acc2 hsub =>
              cases h
              exact ⟨stmts, acc2, heq, rfl, Or.inr ⟨fuel', acc1, rfl, hlib, hsub⟩⟩

theorem resolveLibList_vals {P : PyFile → Prop}
    (recur : List String → Except PyErr PyFile) (fs : FS) (reg sp : List String)
    (hrec : ∀ t g, recur t = .ok g → P g) :
    ∀ ms acc out, (∀ kc ∈ acc, P kc.2) →
      resolveLibList recur fs reg sp ms acc = .ok out → ∀ kc ∈ out, P kc.2 := by
  intro ms
  induction ms with
  | nil =>
    intro acc out hacc h
    cases h
    exact hacc
  | cons m ms ih =>
    intro acc out hacc h
    simp only [resolveLibList] at h
    split at h
    · simp_all
    · exact ih acc out hacc h
    · next t _ =>
      split at h
      · simp_all
      · next child hchild =>
        refine ih _ out ?_ h
        intro kc hkc
        rcases dictInsert_mem (pathStr t) child acc kc hkc with he | he
        · rw [he]
          exact hrec t child hchild
        · exact hacc kc he

theorem resolveSubList_vals {P : PyFile → Prop}
    (recur : List String → Except PyErr PyFile) (fs : FS) (reg : List String)
    (hrec : ∀ t g, recur t = .ok g → P g) :
    ∀ ss acc out, (∀ kc ∈ acc, P kc.2) →
      resolveSubList recur fs reg ss acc = .ok out → ∀ kc ∈ out, P kc.2 := by
  intro ss
  induction ss with
  | nil =>
    intro acc out hacc h
    cases h
    exact hacc
  | cons s ss ih =>
    intro acc out hacc h
    simp only [resolveSubList] at h
    split at h
    · exact ih acc out hacc h
    · next t _ =>
      split at h
      · simp_all
      · next child hchild =>
        refine ih _ out ?_ h
        intro kc hkc
        rcases dictInsert_mem (pathStr t) child acc kc hkc with he | he
        · rw [he]
          exact hrec t child hchild
        · exact hacc kc he

theorem childListInv_iff (d dl : Nat) (inc : Bool) (cs : List (String × PyFile)) :
    childListInv d dl inc cs = true ↔
      ∀ kc ∈ cs, kc.2.depth = d + 1 ∧ kc.2.depthLimit = dl ∧
        kc.2.includeStdlib = inc ∧ unitInv kc.2 = true := by
  induction cs with
  | nil => simp [childListInv]
  | cons hd tl ih =>
    rcases hd with ⟨k, c⟩
    simp only [childListInv, Bool.and_eq_true, beq_iff_eq, ih, List.mem_cons]
    constructor
    · rintro ⟨⟨⟨⟨h1, h2⟩, h3⟩, h4⟩, h5⟩
      rintro kc (rfl | hm)
      · exact ⟨h1, h2, h3, h4⟩
      · exact h5 kc hm
    · intro hall
      have hc := hall (k, c) (Or.inl rfl)
      exact ⟨⟨⟨⟨hc.1, hc.2.1⟩, hc.2.2.1⟩, hc.2.2.2⟩, fun kc hm => hall kc (Or.inr hm)⟩

theorem analyzeF_inv (fs : FS) (reg : List String) (flag : Bool) (limit : Nat) :
    ∀ fuel path depth f, analyzeF fs reg flag limit fuel path depth = .ok f →
      f.depth = depth ∧ f.depthLimit = limit ∧ f.includeStdlib = flag ∧
        f.path = path ∧ unitInv f = true := by
  intro fuel
  induction fuel with
  | zero =>
    intro path depth f h
    obtain ⟨stmts, children, _, rfl, hprov⟩ := analyzeF_ok_shape fs reg flag limit 0 path depth f h
    rcases hprov with rfl | ⟨fuel', _, hfe, _⟩
    · exact ⟨rfl, rfl, rfl, rfl, by simp [unitInv, childListInv]⟩
    · cases hfe
  | succ fl ih =>
    intro path depth f h
    obtain ⟨stmts, children, _, rfl, hprov⟩ :=
      analyzeF_ok_shape fs reg flag limit (fl + 1) path depth f h
    refine ⟨rfl, rfl, rfl, rfl, ?_⟩
    rcases hprov with rfl | ⟨fuel', acc1, hfe, hlib, hsub⟩
    · simp [unitInv, childListInv]
    · have hfe' : fuel' = fl := by omega
      subst hfe'
      have hP : ∀ t g, analyzeF fs reg flag limit fuel' t (depth + 1) = .ok g →
          g.depth = depth + 1 ∧ g.depthLimit = limit ∧ g.includeStdlib = flag ∧
            unitInv g = true := by
        intro t g hg
        have := ih t (depth + 1) g hg
        exact ⟨this.1, this.2.1, this.2.2.1, this.2.2.2.2⟩
      have hacc1 : ∀ kc ∈ acc1, kc.2.depth = depth + 1 ∧ kc.2.depthLimit = limit ∧
          kc.2.includeStdlib = flag ∧ unitInv kc.2 = true :=
        resolveLibList_vals _ fs reg path hP _ [] acc1 (by simp) hlib
      have hch : ∀ kc ∈ children, kc.2.depth = depth + 1 ∧ kc.2.depthLimit = limit ∧
          kc.2.includeStdlib = flag ∧ unitInv kc.2 = true :=
        resolveSubList_vals _ fs reg hP _ acc1 children hacc1 hsub
      show childListInv depth limit flag children = true
      exact (childListInv_iff depth limit flag children).mpr hch

theorem getDepsList_good (cs : List (String × PyFile)) :
    ∀ deps out, (∀ kc ∈ cs, GoodUnit kc.2) → GoodDeps deps →
      getDepsList cs deps = .ok out → GoodDeps out := by
  induction cs with
  | nil =>
    intro deps out _ hd h
    cases h
    exact hd
  | cons hd tl ih =>
    rcases hd with ⟨k, c⟩
    intro deps out hall hd h
    simp only [getDepsList] at h
    split at h
    · simp_all
    · next deps2 h2 =>
      have hg : GoodDeps deps2 :=
        hall (k, c) (List.mem_cons_self _ _) deps deps2 hd h2
      exact ih deps2 out (fun kc hkc => hall kc (List.mem_cons_of_mem _ hkc)) hg h

theorem analyzeF_good (fs : FS) (reg : List String) (flag : Bool) (limit : Nat) :
    ∀ fuel path depth f, analyzeF fs reg flag limit fuel path depth = .ok f →
      GoodUnit f := by
  intro fuel
  induction fuel with
  | zero =>
    intro path depth f h
    obtain ⟨stmts, children, _, rfl, hprov⟩ := analyzeF_ok_shape fs reg flag limit 0 path depth f h
    rcases hprov with rfl | ⟨fuel', _, hfe, _⟩
    · intro deps out hd hget
      simp only [PyFile.get_dependencies] at hget
      split at hget
      · simp_all
      · next sortedLibs hps =>
        have hnd := classifyStmts_nodup reg flag stmts
        have hentry : strictSortedOpt sortedLibs ∧
            strictSorted (strSort (classifyStmts reg flag stmts).2) :=
          ⟨pySorted_strict _ hnd.1 _ hps, strSort_strict _ hnd.2⟩
        refine getDepsList_good [] _ out (by simp) ?_ hget
        intro kc hkc
        rcases dictInsert_mem (pathStr path) _ deps kc hkc with he | he
        · rw [he]
          exact hentry
        · exact hd kc he
    · cases hfe
  | succ fl ih =>
    intro path depth f h
    obtain ⟨stmts, children, _, rfl, hprov⟩ :=
      analyzeF_ok_shape fs reg flag limit (fl + 1) path depth f h
    have hchildren : ∀ kc ∈ children, GoodUnit kc.2 := by
      rcases hprov with rfl | ⟨fuel', acc1, hfe, hlib, hsub⟩
      · simp
      · have hfe' : fuel' = fl := by omega
        subst hfe'
        have hP : ∀ t g, analyzeF fs reg flag limit fuel' t (depth + 1) = .ok g → GoodUnit g :=
          fun t g hg => ih t (depth + 1) g hg
        have hacc1 : ∀ kc ∈ acc1, GoodUnit kc.2 :=
          resolveLibList_vals _ fs reg path hP _ [] acc1 (by simp) hlib
        exact resolveSubList_vals _ fs reg hP _ acc1 children hacc1 hsub
    intro deps out hd hget
    simp only [PyFile.get_dependencies] at hget
    split at hget
    · simp_all
    · next sortedLibs hps =>
      have hnd := classifyStmts_nodup reg flag stmts
      have hentry : strictSortedOpt sortedLibs ∧
          strictSorted (strSort (classifyStmts reg flag stmts).2) :=
        ⟨pySorted_strict _ hnd.1 _ hps, strSort_strict _ hnd.2⟩
      refine getDepsList_good children _ out hchildren ?_ hget
      intro kc hkc
      rcases dictInsert_mem (pathStr path) _ deps kc hkc with he | he
      · rw [he]
        exact hentry
      · exact hd kc he

theorem parseImportsGo_good (fs : FS) (reg : List String) (limit : Nat) (flag : Bool) :
    ∀ paths deps out, GoodDeps deps →
      parseImportsGo fs reg limit flag paths deps = .ok out → GoodDeps out := by
  intro paths
  induction paths with
  | nil =>
    intro deps out hd h
    cases h
    exact hd
  | cons p ps ih =>
    intro deps out hd h
    simp only [parseImportsGo] at h
    split at h
    · simp_all
    · next f hf =>
      split at h
      · simp_all
      · next deps2 h2 =>
        have hg : GoodDeps deps2 :=
          analyzeF_good fs reg flag limit limit p 0 f hf deps deps2 hd h2
        exact ih deps2 out hg h

/-- C1: the claim states that `from M import *` contributes nothing to
`specificSubmodulesImported`; in fact the parse tree carries the literal
name `*`, so the analyzer records `M.*`.  At the concrete root `w.py`
holding `from M import *` the claim's conjunction is false. -/
theorem spec_c1_counterexample :
    ¬ (analyzeRoot fsW [] true 0 ["w.py"] =
        .ok (.mk ["w.py"] 0 0 true [some "M"] ["M.*"] []) ∧
      (classifyStmts [] true [.impFrom (some "M") [⟨"*", none⟩] 0]).2 = []) := by
  intro h
  exact absurd h.2 (by decide)

/-- C1 (amended): a wildcard from-import `from M import *` puts `M` in
`libraryDependencies` (subject to the standard-library filter) and puts the
single entry `M ++ ".*"` into `specificSubmodulesImported`, because the
parse tree represents the wildcard as an imported name spelled `*`. -/
theorem spec_c1_wildcard (M : String) (reg : List String) (flag : Bool)
    (asn : Option String) (lvl : Nat) :
    classifyStmts reg flag [.impFrom (some M) [⟨"*", asn⟩] lvl] =
      ((if flag || !reg.contains M then [some M] else []), [M ++ ".*"]) := by
  cases flag with
  | true =>
    simp [classifyStmts, classifyStmt, processImportFrom, addLibraryDependency,
      inRegistry, setAdd, pyStr, String.append_assoc]
  | false =>
    cases hc : reg.contains M with
    | true =>
      have hm : M ∈ reg := by simpa using hc
      simp [classifyStmts, classifyStmt, processImportFrom, addLibraryDependency,
        inRegistry, setAdd, pyStr, hc, hm, String.append_assoc]
    | false =>
      have hm : ¬ M ∈ reg := by simpa using hc
      simp [classifyStmts, classifyStmt, processImportFrom, addLibraryDependency,
        inRegistry, setAdd, pyStr, hc, hm, String.append_assoc]

/-- C2: with `includeStandardLibrary = false` a candidate is dropped from
`libraryDependencies` exactly when it matches the registry; the flag never
affects `specificSubmodulesImported`; and Scenario B (a root holding
`from pkg import (one as x, two)` with `pkg` in the registry and the flag
false) yields no library dependencies but both qualified submodule
entries, aliases discarded. -/
theorem spec_c2_stdlib_filter :
    (∀ (reg : List String) (name : String) (libs : List (Option String)),
      addLibraryDependency reg false libs (some name) =
        if reg.contains name then libs else setAdd libs (some name)) ∧
    (∀ (reg : List String) (f1 f2 : Bool) (stmts : List Stmt),
      (classifyStmts reg f1 stmts).2 = (classifyStmts reg f2 stmts).2) ∧
    analyzeRoot fsB ["pkg"] false 0 ["root.py"] =
      .ok (.mk ["root.py"] 0 0 false [] ["pkg.one", "pkg.two"] []) ∧
    parseImports fsB ["pkg"] [["root.py"]] 0 false =
      .ok [("root.py", ⟨[], ["pkg.one", "pkg.two"]⟩)] := by
  refine ⟨?_, ?_, rfl, rfl⟩
  · intro reg name libs
    simp [addLibraryDependency, inRegistry]
  · intro reg f1 f2 stmts
    suffices h : ∀ (st1 st2 : ClassState), st1.2 = st2.2 →
        (stmts.foldl (classifyStmt reg f1) st1).2 = (stmts.foldl (classifyStmt reg f2) st2).2 by
      exact h ([], []) ([], []) rfl
    induction stmts with
    | nil => exact fun st1 st2 h => h
    | cons s ss ih =>
      intro st1 st2 h
      refine ih _ _ ?_
      cases s with
      | imp names => exact h
      | impFrom m names lvl =>
        simp only [classifyStmt, processImportFrom]
        rw [h]

/-- C3: the resolution policy for a candidate `D` from
`library_dependencies`: registry names are skipped outright; otherwise the
sibling file `parent(self) / (D ++ ".py")` (dots kept) is probed first,
then the dots-to-path-separators interpretation relative to the working
directory; the first existing candidate is chosen, and if neither exists
the candidate is left unresolved with no error. -/
theorem spec_c3_library_resolution (fs : FS) (path reg : List String) (D : String) :
    (reg.contains D = true → libTarget fs path reg (some D) = .ok none) ∧
    (reg.contains D = false → fs.pathExists (parentDir path ++ [D ++ ".py"]) = true →
      libTarget fs path reg (some D) = .ok (some (parentDir path ++ [D ++ ".py"]))) ∧
    (reg.contains D = false → fs.pathExists (parentDir path ++ [D ++ ".py"]) = false →
      fs.pathExists (dottedPath D) = true →
      libTarget fs path reg (some D) = .ok (some (dottedPath D))) ∧
    (reg.contains D = false → fs.pathExists (parentDir path ++ [D ++ ".py"]) = false →
      fs.pathExists (dottedPath D) = false →
      libTarget fs path reg (some D) = .ok none) := by
  refine ⟨?_, ?_, ?_, ?_⟩
  · intro h
    have hm : D ∈ reg := by simpa using h
    simp [libTarget, hm]
  · intro h1 h2
    have hm : ¬ D ∈ reg := by simpa using h1
    simp [libTarget, hm, h2]
  · intro h1 h2 h3
    have hm : ¬ D ∈ reg := by simpa using h1
    simp [libTarget, hm, h2, h3]
  · intro h1 h2 h3
    have hm : ¬ D ∈ reg := by simpa using h1
    simp [libTarget, hm, h2, h3]

theorem spec_c3_witness :
    ((["os"] : List String).contains "os" = true ∧
      libTarget fsR ["dir", "cur.py"] ["os"] (some "os") = .ok none) ∧
    ((["os"] : List String).contains "sib" = false ∧
      fsR.pathExists (parentDir ["dir", "cur.py"] ++ ["sib" ++ ".py"]) = true ∧
      libTarget fsR ["dir", "cur.py"] ["os"] (some "sib") = .ok (some ["dir", "sib.py"])) ∧
    (libTarget fsR ["dir", "cur.py"] ["os"] (some "mod") = .ok (some ["mod.py"])) ∧
    (libTarget fsR ["dir", "cur.py"] ["os"] (some "nope") = .ok none) := by
  refine ⟨⟨by decide, ?_⟩, ⟨by decide, by decide, ?_⟩, ?_, ?_⟩
  · exact (spec_c3_library_resolution fsR ["dir", "cur.py"] ["os"] "os").1 (by decide)
  · exact (spec_c3_library_resolution fsR ["dir", "cur.py"] ["os"] "sib").2.1 (by decide) (by decide)
  · exact (spec_c3_library_resolution fsR ["dir", "cur.py"] ["os"] "mod").2.2.1
      (by decide) (by decide) (by decide)
  · exact (spec_c3_library_resolution fsR ["dir", "cur.py"] ["os"] "nope").2.2.2
      (by decide) (by decide) (by decide)

/-- C4: a candidate from `specific_submodules_imported` is only ever tried
at its dots-to-path-separators interpretation relative to the working
directory, recursion happens only when that path exists and is not a
directory, and otherwise the candidate is left unresolved. -/
theorem spec_c4_submodule_resolution (fs : FS) (reg : List String) (s : String) :
    (∀ t, subTarget fs reg s = some t →
      t = dottedPath s ∧ fs.pathExists t = true ∧ fs.isDir t = false) ∧
    (fs.pathExists (dottedPath s) = false ∨ fs.isDir (dottedPath s) = true →
      subTarget fs reg s = none) ∧
    (reg.contains s = false → fs.pathExists (dottedPath s) = true →
      fs.isDir (dottedPath s) = false → subTarget fs reg s = some (dottedPath s)) := by
  refine ⟨?_, ?_, ?_⟩
  · intro t ht
    unfold subTarget at ht
    split at ht
    · cases ht
    · split at ht
      · next hcond =>
        cases ht
        rw [Bool.and_eq_true, Bool.not_eq_true'] at hcond
        exact ⟨rfl, hcond.1, hcond.2⟩
      · cases ht
  · intro h
    unfold subTarget
    split
    · rfl
    · rcases h with h | h
      · simp [h]
      · simp [h]
  · intro h1 h2 h3
    have hm : ¬ s ∈ reg := by simpa using h1
    simp [subTarget, hm, h2, h3]

theorem spec_c4_witness :
    (subTarget fsS [] "p.q" = some ["p", "q.py"] ∧ ["p", "q.py"] = dottedPath "p.q" ∧
      fsS.pathExists ["p", "q.py"] = true ∧ fsS.isDir ["p", "q.py"] = false) ∧
    subTarget fsS [] "d.e" = none ∧
    subTarget fsS [] "zz" = none := by
  refine ⟨⟨?_, ?_⟩, ?_, ?_⟩
  · exact (spec_c4_submodule_resolution fsS [] "p.q").2.2 (by decide) (by decide) (by decide)
  · have h := (spec_c4_submodule_resolution fsS [] "p.q").1 ["p", "q.py"] (by decide)
    exact ⟨h.1, h.2.1, h.2.2⟩
  · exact (spec_c4_submodule_resolution fsS [] "d.e").2.1 (Or.inr (by decide))
  · exact (spec_c4_submodule_resolution fsS [] "zz").2.1 (Or.inl (by decide))

/-- C5: a unit analyzed at `depth = depth_limit` still performs extraction
and classification but constructs no child units; and Scenario C (sibling
files `a.py` and `b.py` importing each other) terminates at
`depth_limit = 5` with the expected output document. -/
theorem spec_c5_depth_leaf :
    (∀ (fs : FS) (reg : List String) (flag : Bool) (limit fuel : Nat)
      (path : List String) (f : PyFile),
      analyzeF fs reg flag limit fuel path limit = .ok f →
      ∃ stmts, fs.lookupFile path = some (some stmts) ∧
        f = .mk path limit limit flag (classifyStmts reg flag stmts).1
          (classifyStmts reg flag stmts).2 []) ∧
    parseImports fsC [] [["a.py"]] 5 true =
      .ok [("a.py", ⟨[some "b"], []⟩), ("b.py", ⟨[some "a"], []⟩)] := by
  refine ⟨?_, rfl⟩
  intro fs reg flag limit fuel path f h
  unfold analyzeF at h
  split at h
  · simp_all
  · split at h
    · simp_all
    · simp_all
    · next stmts heq =>
      rw [beq_self_eq_true] at h
      simp only [if_true] at h
      cases h
      exact ⟨stmts, heq, rfl⟩

theorem spec_c5_witness :
    ∃ stmts, fsC.lookupFile ["a.py"] = some (some stmts) ∧
      PyFile.mk ["a.py"] 0 0 true [some "b"] [] [] =
        .mk ["a.py"] 0 0 true (classifyStmts [] true stmts).1
          (classifyStmts [] true stmts).2 [] :=
  spec_c5_depth_leaf.1 fsC [] true 0 0 ["a.py"]
    (.mk ["a.py"] 0 0 true [some "b"] [] []) rfl

/-- C6: Scenario A — a root with `import alpha` and `import alpha.beta`
where only `alpha.beta.py` exists, analyzed at `depth_limit = 1`: both
names land in `libraryDependencies`, nothing lands in
`specificSubmodulesImported`, and exactly one child unit is built, for the
file resolved for `alpha.beta`. -/
theorem spec_c6_scenario_a :
    analyzeRoot fsA [] true 1 ["root.py"] =
      .ok (.mk ["root.py"] 0 1 true [some "alpha", some "alpha.beta"] []
        [("alpha.beta.py", .mk ["alpha.beta.py"] 1 1 true [] [] [])]) ∧
    fsA.pathExists ["alpha.py"] = false ∧
    parseImports fsA [] [["root.py"]] 1 true =
      .ok [("root.py", ⟨[some "alpha", some "alpha.beta"], []⟩),
        ("alpha.beta.py", ⟨[], []⟩)] :=
  ⟨rfl, by decide, rfl⟩

/-- C7: every successfully analyzed unit carries the depth it was invoked
at and the caller's `depth_limit` and `include_stdlib_modules` unchanged,
and every child in its tree has depth exactly one more than its parent
with the same settings (`unitInv`); caller-supplied roots are analyzed at
depth 0. -/
theorem spec_c7_child_inheritance :
    (∀ (fs : FS) (reg : List String) (flag : Bool) (limit fuel : Nat)
      (path : List String) (depth : Nat) (f : PyFile),
      analyzeF fs reg flag limit fuel path depth = .ok f →
      f.depth = depth ∧ f.depthLimit = limit ∧ f.includeStdlib = flag ∧
        unitInv f = true) ∧
    (∀ (fs : FS) (reg : List String) (flag : Bool) (limit : Nat)
      (path : List String) (f : PyFile),
      analyzeRoot fs reg flag limit path = .ok f → f.depth = 0) := by
  constructor
  · intro fs reg flag limit fuel path depth f h
    have := analyzeF_inv fs reg flag limit fuel path depth f h
    exact ⟨this.1, this.2.1, this.2.2.1, this.2.2.2.2⟩
  · intro fs reg flag limit path f h
    exact (analyzeF_inv fs reg flag limit limit path 0 f h).1

theorem spec_c7_witness :
    (PyFile.mk ["root.py"] 0 1 true [some "alpha", some "alpha.beta"] []
        [("alpha.beta.py", .mk ["alpha.beta.py"] 1 1 true [] [] [])]).depth = 0 ∧
    unitInv (PyFile.mk ["root.py"] 0 1 true [some "alpha", some "alpha.beta"] []
        [("alpha.beta.py", .mk ["alpha.beta.py"] 1 1 true [] [] [])]) = true := by
  have h := spec_c7_child_inheritance.1 fsA [] true 1 1 ["root.py"] 0
    (.mk ["root.py"] 0 1 true [some "alpha", some "alpha.beta"] []
      [("alpha.beta.py", .mk ["alpha.beta.py"] 1 1 true [] [] [])]) rfl
  exact ⟨h.1, h.2.2.2⟩

/-- C8: every entry of a successfully produced output mapping has both of
its arrays strictly lexicographically sorted with no duplicate entries. -/
theorem spec_c8_sorted_output (fs : FS) (reg : List String)
    (paths : List (List String)) (limit : Nat) (flag : Bool) (deps : DepsMap)
    (h : parseImports fs reg paths limit flag = .ok deps) :
    ∀ kc ∈ deps, strictSortedOpt kc.2.library_dependencies ∧
      strictSorted kc.2.specific_submodules_imported :=
  parseImportsGo_good fs reg limit flag paths [] deps
    (fun kc hkc => absurd hkc (List.not_mem_nil kc)) h

theorem spec_c8_witness :
    strictSortedOpt [some "alpha", some "alpha.beta"] ∧ strictSorted ([] : List String) := by
  have h := spec_c8_sorted_output fsA [] [["root.py"]] 1 true
    [("root.py", ⟨[some "alpha", some "alpha.beta"], []⟩), ("alpha.beta.py", ⟨[], []⟩)] rfl
  exact h ("root.py", ⟨[some "alpha", some "alpha.beta"], []⟩) (by simp)

/-- C9: a visited file that fails to parse raises immediately, the error
propagates through every enclosing resolution to the top level, and no
output document is produced (Scenario: `good.py` imports the sibling
`bad.py`, whose text is not valid Python). -/
theorem spec_c9_parse_failure_aborts :
    (∀ (fs : FS) (reg : List String) (flag : Bool) (limit fuel : Nat)
      (path : List String) (depth : Nat),
      fs.isDir path = false → fs.lookupFile path = some none →
      analyzeF fs reg flag limit fuel path depth = .error .parseError) ∧
    parseImports fs9 [] [["good.py"]] 1 true = .error .parseError ∧
    (∀ deps : DepsMap, parseImports fs9 [] [["good.py"]] 1 true ≠ .ok deps) := by
  refine ⟨?_, rfl, ?_⟩
  · intro fs reg flag limit fuel path depth h1 h2
    unfold analyzeF
    rw [h2]
    simp [h1]
  · intro deps h
    rw [show parseImports fs9 [] [["good.py"]] 1 true = .error .parseError from rfl] at h
    cases h

theorem spec_c9_witness :
    fs9.isDir ["bad.py"] = false ∧ fs9.lookupFile ["bad.py"] = some none ∧
      analyzeF fs9 [] true 1 0 ["bad.py"] 1 = .error .parseError :=
  ⟨by decide, rfl, spec_c9_parse_failure_aborts.1 fs9 [] true 1 0 ["bad.py"] 1 (by decide) rfl⟩

/-- C10: for a purely relative from-import (`from . import x`) the parse
tree's module is absent and the classifier stores Python `None` itself in
`library_dependencies` and the string `"None.x"` in
`specific_submodules_imported`; when a string name is also present,
`get_dependencies` raises `TypeError` while sorting instead of producing
output. -/
theorem spec_c10_relative_import_none :
    (∀ (reg : List String) (flag : Bool) (x : String) (asn : Option String) (lvl : Nat),
      classifyStmts reg flag [.impFrom none [⟨x, asn⟩] lvl] = ([none], ["None." ++ x])) ∧
    analyzeRoot fs10 [] true 0 ["f.py"] =
      .ok (.mk ["f.py"] 0 0 true [none, some "y"] ["None.x"] []) ∧
    PyFile.get_dependencies (.mk ["f.py"] 0 0 true [none, some "y"] ["None.x"] []) [] =
      .error .typeError ∧
    parseImports fs10 [] [["f.py"]] 0 true = .error .typeError := by
  refine ⟨?_, rfl, rfl, rfl⟩
  intro reg flag x asn lvl
  cases flag with
  | true =>
    simp [classifyStmts, classifyStmt, processImportFrom, addLibraryDependency,
      inRegistry, setAdd, pyStr, String.append_assoc]
  | false =>
    simp [classifyStmts, classifyStmt, processImportFrom, addLibraryDependency,
      inRegistry, setAdd, pyStr, String.append_assoc]
